import Mathlib

/-!
Verification of the `runner` snippet-runner against its source
(`src/main.rs`, `src/cache.rs`).

Source text is modelled at line granularity: a line is a `List Char`
(no trailing newline), and a text that the Rust code builds by
concatenating newline-terminated lines is modelled as a `List` of such
lines.  Rust's `str::trim_left` / `starts_with` become `trimLeft` /
`startsWith` below; `String` ordering (used by `Vec::sort`) is the
lexicographic order on `List Char`, which agrees with Rust's byte-wise
ordering because UTF-8 preserves scalar order.

External effects (the alias file, the metadata cache, the filesystem,
subprocess exit status) are passed in as explicit parameters or state
records, so every function here is a pure translation of the
corresponding Rust function.
-/

namespace Runner

/-- A single line of source text, without its terminating newline. -/
abbrev Line := List Char

/-- Whitespace test used by `trim_left` (ASCII fragment of Rust's
`char::is_whitespace`). -/
def isWS (c : Char) : Bool := c.isWhitespace

/-- Rust `str::trim_left` (a.k.a. `trim_start`) on one line. -/
def trimLeft (l : Line) : Line := l.dropWhile isWS

/-- Rust `str::starts_with`: `startsWith l p` is true when `p` is a
prefix of `l`. -/
def startsWith : Line → Line → Bool
  | _, [] => true
  | [], _ :: _ => false
  | c :: cs, p :: ps => c == p && startsWith cs ps

/-- Rust `str::contains` / `str::find(..).is_some()`: substring test. -/
def containsSub : Line → Line → Bool
  | [], pat => startsWith [] pat
  | c :: cs, pat => startsWith (c :: cs) pat || containsSub cs pat

/-- Modelled from the spec: `strutil::after` (module `strutil` is not in
`src/`).  Per §4.1, "A line beginning with a macro-use marker ... is
hoisted": `after s pat` strips `pat` when the line begins with it. -/
def after (s pat : Line) : Option Line :=
  if startsWith s pat then some (s.drop pat.length) else none

/-- Suffix of `s` after the first occurrence of `pat`, if any. -/
def subAfter (pat : Line) : Line → Option Line
  | [] => if startsWith [] pat then some [] else none
  | c :: cs =>
    if startsWith (c :: cs) pat then some ((c :: cs).drop pat.length)
    else subAfter pat cs

/-- Identifier characters of a crate name. -/
def isWordChar (c : Char) : Bool := c.isAlphanum || c == '_'

/-- Modelled from the spec: `strutil::word_after` (module `strutil` is
not in `src/`).  Per §4.1, "if it textually matches 'import declaration
of X' the name X is added": the identifier word following the first
occurrence of `pat` in `s`. -/
def word_after (s pat : Line) : Option Line :=
  (subAfter pat s).map (fun r => r.takeWhile isWordChar)

/-- The `#!/` shebang marker. -/
def shebangMark : Line := "#!/".data

/-- The `#[macro_use` marker. -/
def museMark : Line := "#[macro_use".data

/-- The `extern ` marker. -/
def externMark : Line := "extern ".data

/-- The `use ` marker. -/
def useMark : Line := "use ".data

/-- The crate-level (inner) attribute marker `#![`. -/
def attrMark : Line := "#![".data

/-- The `extern crate ` pattern scanned for deduced externs. -/
def externCrateMark : Line := "extern crate ".data

/-- `indent_line` from `massage_snippet`: four-space indent. -/
def indentLine (l : Line) : Line := "    ".data ++ l

/-- Result of the header-classification loop inside `massage_snippet`:
the crate-attribute segment, the lines hoisted into the preamble, the
crate names pushed onto `deduced_externs` during the scan, and the
(indented) body lines. -/
structure SnippetParts where
  crateBegin : List Line
  hoisted : List Line
  deduced : List Line
  bodyLines : List Line
deriving DecidableEq

/-- Push an optionally found crate name onto the deduced list. -/
def optCons (o : Option Line) (d : List Line) : List Line :=
  match o with
  | some w => w :: d
  | none => d

/-- The line-classification loop of `massage_snippet`
(`src/main.rs:684-722`).  The `first` flag mirrors the Rust `first`
variable: it stays `true` while leading shebang lines are being
dropped.  The first non-empty unclassified line (trimmed, indented)
starts the body; all later lines are indented verbatim. -/
def classifyLines : Bool → List Line → SnippetParts
  | _, [] => ⟨[], [], [], []⟩
  | first, l :: ls =>
    let line := trimLeft l
    if first && startsWith line shebangMark then
      classifyLines true ls
    else if (after line museMark).isSome then
      let p := classifyLines false ls
      ⟨p.crateBegin, line :: p.hoisted,
        optCons (word_after ((after line museMark).getD []) externCrateMark) p.deduced,
        p.bodyLines⟩
    else if startsWith line externMark || startsWith line useMark then
      let p := classifyLines false ls
      ⟨p.crateBegin, line :: p.hoisted,
        optCons (word_after line externCrateMark) p.deduced,
        p.bodyLines⟩
    else if startsWith line attrMark then
      let p := classifyLines false ls
      ⟨line :: p.crateBegin, p.hoisted, p.deduced, p.bodyLines⟩
    else if line.isEmpty then
      classifyLines false ls
    else
      ⟨[], [], [], indentLine line :: ls.map indentLine⟩

/-- The `extern crate NAME;` / `extern crate ALIAS as NAME;` preamble
line emitted for an explicitly requested crate (`src/main.rs:673-679`).
The alias table (`get_aliases`, read from the alias file) is passed in
as a lookup function. -/
def mkExternLine (aliases : Line → Option Line) (c : Line) : Line :=
  match aliases c with
  | some a => externCrateMark ++ a ++ " as ".data ++ c ++ [';']
  | none => externCrateMark ++ c ++ [';']

/-- The `use NAME::*;` preamble line for a wildcard-import crate. -/
def wildLine (c : Line) : Line := useMark ++ c ++ "::*;".data

/-- Preamble lines for requested crates (`src/main.rs:671-683`): emitted
only when the explicit extern list is non-empty, exactly as in the
source. -/
def externUseLines (aliases : Line → Option Line)
    (externCrates wildCrates : List Line) : List Line :=
  if externCrates = [] then []
  else externCrates.map (mkExternLine aliases) ++ wildCrates.map wildLine

/-- Remove adjacent duplicates: Rust `Vec::dedup`. -/
def dedupAdj : List Line → List Line
  | [] => []
  | [a] => [a]
  | a :: b :: rest =>
    if a = b then dedupAdj (b :: rest) else a :: dedupAdj (b :: rest)

/-- Rust `Vec::sort` on strings (a stable sort under the lexicographic
order; every stable sort has the same output, so insertion sort is used
as the model). -/
def sortLines (l : List Line) : List Line :=
  List.insertionSort (fun a b : Line => a ≤ b) l

/-- The `fn run()` header line of the generated wrapper
(`src/main.rs:732`). -/
def runHeaderLine : Line :=
  "fn run() -> std::result::Result<(),Box<std::error::Error>> \x7b".data

/-- The `    Ok(())` line closing the generated `run` body. -/
def okLine : Line := "    Ok(())".data

/-- The generated `fn main` wrapper (`src/main.rs:734-739`): the error
from `run()` is reported with `println!`, i.e. on standard output. -/
def mainTail : List Line :=
  ["\x7d".data,
   "fn main() \x7b".data,
   "    if let Err(e) = run() \x7b".data,
   "        println!(\"error: \x7b:?\x7d\",e);".data,
   "    \x7d".data,
   "\x7d".data]

/-- The full fixed tail of the generated program after the body. -/
def tailLines : List Line := okLine :: mainTail

/-- `body` starts as `body_prelude` (no trailing newline), so a
non-empty prepend statement is glued onto the following line. -/
def mergeFront (p : Line) (ls : List Line) : List Line :=
  if p = [] then ls
  else
    match ls with
    | [] => [p]
    | l :: rest => (p ++ l) :: rest

/-- `massage_snippet` (`src/main.rs:656-744`), at line granularity.
Returns the massaged program (as lines) and `deduced_externs`.  The
prelude is passed as its list of (newline-terminated) lines; the alias
table is the lookup map `get_aliases` would return. -/
def massage_snippet (code preludeLines : List Line)
    (externCrates wildCrates : List Line) (bodyPre : Line)
    (aliases : Line → Option Line) : List Line × List Line :=
  let parts := classifyLines true code
  let pfx := preludeLines ++ externUseLines aliases externCrates wildCrates
      ++ parts.hoisted
  let deduced := dedupAdj (sortLines (parts.deduced ++ externCrates))
  let out := parts.crateBegin ++ [[]] ++ pfx ++ [[], []] ++ [runHeaderLine]
      ++ mergeFront bodyPre (parts.bodyLines ++ tailLines)
  (out, deduced)

/-- A crate-level attribute line, as it appears in (input or output)
text: its trimmed form begins with `#![`. -/
def isAttrLine (l : Line) : Bool := startsWith (trimLeft l) attrMark

/-- An import (`extern`) or `use` line as the classifier and the
generated preamble produce them (at column zero). -/
def isImportLine (l : Line) : Bool :=
  startsWith l externMark || startsWith l useMark

/-- `suf` is the final segment of the line list `out`. -/
def endsWithLines (out suf : List Line) : Bool :=
  suf == out.drop (out.length - suf.length)

/-- Shape of the first body line produced by the classifier: it is one
of the input lines, trimmed and indented, and it satisfied none of the
header tests (that is exactly why the loop broke on it). -/
def plainBody (L : Line) : Prop :=
  trimLeft L = L ∧ L.isEmpty = false ∧
    startsWith L museMark = false ∧ startsWith L externMark = false ∧
    startsWith L useMark = false ∧ startsWith L attrMark = false

/-- The `fn main` wrapper the spec describes, reporting the error on
standard error (`eprintln!`).  The generated code does not contain it. -/
def mainTailStderr : List Line :=
  ["\x7d".data,
   "fn main() \x7b".data,
   "    if let Err(e) = run() \x7b".data,
   "        eprintln!(\"error: \x7b:?\x7d\",e);".data,
   "    \x7d".data,
   "\x7d".data]

/-- The "proper Rust program" test of `main` (`src/main.rs:303`):
`code.find("fn main").is_some()`.  The pattern contains no newline, so
the text-level substring search is the same as a per-line search. -/
def properSnippet (code : List Line) : Bool :=
  code.any (fun l => containsSub l ("fn main".data))

/-- The snippet-vs-proper branch of `main` (`src/main.rs:302-339`): a
proper program is compiled verbatim with no snippet-derived externs;
otherwise the snippet transformer runs. -/
def processProgram (code preludeLines : List Line)
    (externCrates wildCrates : List Line) (bodyPre : Line)
    (aliases : Line → Option Line) : List Line × List Line :=
  if properSnippet code then (code, [])
  else massage_snippet code preludeLines externCrates wildCrates bodyPre aliases

/-- Message produced when a static-mode lookup fails
(`src/main.rs:442`; the source's format string has an unbalanced
quote, so the message really ends with the bare crate name). -/
def noSuchCrateMsg (c : Line) : Line := "no such crate '".data ++ c

/-- Static-mode resolution of the `--extern` references
(`src/main.rs:440-443`): each crate name is resolved through the
metadata cache (`meta::Meta::get_full_crate_name`, passed in as the
lookup `meta`, keyed by name and debug profile); `or_then_die` aborts
at the first unresolved name. -/
def resolveStaticExterns (meta : Line → Bool → Option Line) (debug : Bool) :
    List Line → Except Line (List (Line × Line))
  | [] => .ok []
  | c :: cs =>
    match meta c debug with
    | none => .error (noSuchCrateMsg c)
    | some full =>
      match resolveStaticExterns meta debug cs with
      | .ok rest => .ok ((full, c) :: rest)
      | .error e => .error e

/-- The extern-list preprocessing of `compile_crate`
(`src/main.rs:395-401`): extend with the `--extern` arguments, sort,
dedup, then push `libc` when requested. -/
def compileExternList (externCrates argExterns : List Line) (libc : Bool) : List Line :=
  let ec := dedupAdj (sortLines (externCrates ++ argExterns))
  if libc then ec ++ ["libc".data] else ec

/-- The `--extern` resolution of `compile_crate` (`src/main.rs:438-448`):
in static mode with a non-empty list the names go through the metadata
cache; otherwise the dynamic-mode filename
`DLL_PREFIX ++ name ++ DLL_SUFFIX` is constructed. -/
def compile_crate_externs (buildStatic debug libc : Bool)
    (meta : Line → Bool → Option Line) (dllPre dllSuf : Line)
    (externCrates argExterns : List Line) : Except Line (List (Line × Line)) :=
  let ec := compileExternList externCrates argExterns libc
  if buildStatic = true ∧ ec ≠ [] then resolveStaticExterns meta debug ec
  else .ok (ec.map (fun c => (dllPre ++ c ++ dllSuf, c)))

/-- The on-disk state touched by a static-cache creation: the
`Cargo.toml` content and the temp-file backup. -/
structure ManifestState where
  manifest : Line
  backup : Option Line
deriving DecidableEq

/-- One appended dependency line (`src/main.rs:587-593`): a crate
specification without `=` gets `="*"` appended. -/
def depLine (c : Line) : Line :=
  if c.contains '=' then c ++ ['\n'] else c ++ "=\"*\"".data ++ ['\n']

/-- `build_static_cache` (`src/main.rs:540-553`) as a success
predicate: the debug `cargo_build` pass, then the release pass (each
must return captured output), then `cargo doc`; the first failure
aborts the chain. -/
def build_static_cache_ok (debugOut releaseOut : Option Line) (docOk : Bool) : Bool :=
  match debugOut with
  | none => false
  | some _ =>
    match releaseOut with
    | none => false
    | some _ => docOk

/-- The manifest-editing tail of `create_static_cache`
(`src/main.rs:582-598`): back up `Cargo.toml` to the temp file, append
one dependency line per crate, run the two-pass build, and restore
from the backup when it fails. -/
def create_static_cache (fs : ManifestState) (crates : List Line)
    (debugOut releaseOut : Option Line) (docOk : Bool) : ManifestState :=
  let fs1 : ManifestState := { manifest := fs.manifest, backup := some fs.manifest }
  let fs2 : ManifestState :=
    { fs1 with manifest := crates.foldl (fun acc c => acc ++ depLine c) fs1.manifest }
  if build_static_cache_ok debugOut releaseOut docOk then fs2
  else { fs2 with manifest := fs2.backup.getD fs2.manifest }

/-- The `{` character (written by code point to keep brace escapes out
of character literals). -/
def braceChar : Char := Char.ofNat 123

/-- The loop body of `cargo_build` (`src/main.rs:507-516`): a line
starting with `{` is appended (newline-terminated) to the captured
output; any other line is echoed to the console. -/
def cargoBuildStep (acc : Line × List Line) (l : Line) : Line × List Line :=
  if startsWith l [braceChar] then (acc.1 ++ l ++ ['\n'], acc.2)
  else (acc.1, acc.2 ++ [l])

/-- `cargo_build` (`src/main.rs:488-523`): the subprocess stdout is the
line list `lines` and `exitOk` its exit status.  Returns the captured
JSON text (`some` iff the exit succeeded) and the echoed lines. -/
def cargo_build (lines : List Line) (exitOk : Bool) : Option Line × List Line :=
  let r := lines.foldl cargoBuildStep ([], [])
  (if exitOk then some r.1 else none, r.2)

/-- The filesystem state `get_prelude` touches: whether the runner home
directory exists, the prelude file content, and whether the `bin/` and
dynamic-cache directories exist. -/
structure FsState where
  homeDir : Bool
  preludeFile : Option Line
  binDir : Bool
  dyDir : Bool
deriving DecidableEq

/-- The default prelude text (`src/main.rs:75-93`). -/
def defaultPrelude : Line :=
  "\n#![allow(unused_imports)]\n#![allow(unused_variables)]\n#![allow(dead_code)]\n#![allow(unused_macros)]\nuse std::fs;\nuse std::fs::File;\nuse std::io;\nuse std::io::prelude::*;\nuse std::env;\nuse std::path::\x7bPathBuf,Path\x7d;\nuse std::collections::HashMap;\n\nmacro_rules! debug \x7b\n    ($x:expr) => \x7b\n        println!(\"\x7b\x7d = \x7b:?\x7d\",stringify!($x),$x);\n    \x7d\n\x7d\n".data

/-- `get_prelude` (`src/main.rs:601-619`): on a pristine home (the
directory is absent) create it, write the default prelude, and create
the dynamic cache; create `bin/` when pristine or absent; finally read
the prelude file (`none` models the `or_die` abort when it is
missing). -/
def get_prelude (fs : FsState) : FsState × Option Line :=
  let pristine := !fs.homeDir
  let fs1 := if pristine then { fs with homeDir := true } else fs
  let fs2 :=
    if pristine then { fs1 with preludeFile := some defaultPrelude, dyDir := true }
    else fs1
  let fs3 := if pristine || !fs2.binDir then { fs2 with binDir := true } else fs2
  (fs3, fs3.preludeFile)

/-! ### Basic lemmas about the line primitives -/

lemma startsWith_nil (l : Line) : startsWith l [] = true := by
  cases l <;> rfl

lemma startsWith_cons {l : Line} {p : Char} {ps : Line}
    (h : startsWith l (p :: ps) = true) :
    ∃ t, l = p :: t ∧ startsWith t ps = true := by
  cases l with
  | nil => simp [startsWith] at h
  | cons c cs =>
    simp only [startsWith, Bool.and_eq_true, beq_iff_eq] at h
    exact ⟨cs, by rw [h.1], h.2⟩

lemma startsWith_append {a p : Line} (x : Line) (h : startsWith a p = true) :
    startsWith (a ++ x) p = true := by
  induction p generalizing a with
  | nil => exact startsWith_nil _
  | cons q qs ih =>
    obtain ⟨t, rfl, ht⟩ := startsWith_cons h
    simpa [startsWith] using ih ht

lemma startsWith_trans {l p q : Line} (h1 : startsWith l p = true)
    (h2 : startsWith p q = true) : startsWith l q = true := by
  induction q generalizing l p with
  | nil => exact startsWith_nil _
  | cons c cs ih =>
    obtain ⟨pt, rfl, hpt⟩ := startsWith_cons h2
    obtain ⟨lt, rfl, hlt⟩ := startsWith_cons h1
    simpa [startsWith] using ih hlt hpt

lemma startsWith_refl (l : Line) : startsWith l l = true := by
  induction l with
  | nil => rfl
  | cons c cs ih => simp [startsWith, ih]

lemma containsSub_append_right (a c : Line) :
    containsSub (a ++ c) c = true := by
  induction a with
  | nil =>
    cases c with
    | nil => rfl
    | cons y ys => simp [containsSub, startsWith_refl]
  | cons x xs ih =>
    cases hc : c with
    | nil => simp [containsSub, startsWith_nil]
    | cons y ys =>
      rw [← hc]
      simp only [List.cons_append, containsSub, Bool.or_eq_true]
      exact Or.inr ih

lemma trimLeft_cons_false {c : Char} {cs : Line} (h : isWS c = false) :
    trimLeft (c :: cs) = c :: cs := by
  simp [trimLeft, List.dropWhile_cons, h]

lemma trimLeft_idem (l : Line) : trimLeft (trimLeft l) = trimLeft l := by
  induction l with
  | nil => rfl
  | cons c cs ih =>
    rcases h : isWS c with _ | _
    · rw [show trimLeft (c :: cs) = c :: cs from by
        simp [trimLeft, List.dropWhile_cons, h]]
      simp [trimLeft, List.dropWhile_cons, h]
    · rw [show trimLeft (c :: cs) = trimLeft cs from by
        simp [trimLeft, List.dropWhile_cons, h]]
      exact ih

lemma trimLeft_indent (l : Line) : trimLeft (indentLine l) = trimLeft l := by
  show trimLeft (' ' :: ' ' :: ' ' :: ' ' :: l) = trimLeft l
  simp [trimLeft, List.dropWhile_cons, show isWS ' ' = true from rfl]

lemma after_isSome (s p : Line) : (after s p).isSome = startsWith s p := by
  unfold after
  split <;> simp_all

/-! ### Lemmas about `dedupAdj` and `sortLines` -/

lemma mem_dedupAdj (a : Line) : ∀ (l : List Line), a ∈ dedupAdj l ↔ a ∈ l
  | [] => by simp [dedupAdj]
  | [b] => by simp [dedupAdj]
  | b :: c :: rest => by
    by_cases h : b = c
    · subst h
      rw [show dedupAdj (b :: b :: rest) = dedupAdj (b :: rest) from by
        simp [dedupAdj]]
      rw [mem_dedupAdj a (b :: rest)]
      simp [List.mem_cons]
    · simp only [dedupAdj, if_neg h, List.mem_cons]
      rw [mem_dedupAdj a (c :: rest)]
      simp [List.mem_cons]

lemma sorted_dedupAdj : ∀ {l : List Line},
    l.Sorted (· ≤ ·) → (dedupAdj l).Sorted (· ≤ ·)
  | [], _ => by simp [dedupAdj]
  | [b], h => by simp [dedupAdj]
  | b :: c :: rest, h => by
    have htl : (c :: rest).Sorted (· ≤ ·) := (List.sorted_cons.mp h).2
    by_cases hbc : b = c
    · subst hbc
      simpa [dedupAdj] using sorted_dedupAdj htl
    · simp only [dedupAdj, if_neg hbc]
      refine List.sorted_cons.mpr ⟨?_, sorted_dedupAdj htl⟩
      intro x hx
      exact (List.sorted_cons.mp h).1 x ((mem_dedupAdj x (c :: rest)).mp hx)

lemma nodup_dedupAdj : ∀ {l : List Line},
    l.Sorted (· ≤ ·) → (dedupAdj l).Nodup
  | [], _ => by simp [dedupAdj]
  | [b], _ => by simp [dedupAdj]
  | b :: c :: rest, h => by
    have hcs : (c :: rest).Sorted (· ≤ ·) := (List.sorted_cons.mp h).2
    by_cases hbc : b = c
    · subst hbc
      simpa [dedupAdj] using nodup_dedupAdj hcs
    · simp only [dedupAdj, if_neg hbc]
      refine List.nodup_cons.mpr ⟨?_, nodup_dedupAdj hcs⟩
      intro hmem
      have hx : b ∈ c :: rest := (mem_dedupAdj b (c :: rest)).mp hmem
      have hlt : b < c :=
        lt_of_le_of_ne ((List.sorted_cons.mp h).1 c (by simp)) hbc
      rcases List.mem_cons.mp hx with rfl | hx
      · exact hbc rfl
      · exact absurd rfl
          (ne_of_lt (lt_of_lt_of_le hlt ((List.sorted_cons.mp hcs).1 b hx)))

/-! ### Invariants of the classification loop -/

lemma crateBegin_attr (f : Bool) (code : List Line) :
    ∀ l ∈ (classifyLines f code).crateBegin, startsWith l attrMark = true := by
  induction code generalizing f with
  | nil => intro l hl; simp [classifyLines] at hl
  | cons c cs ih =>
    intro l hl
    simp only [classifyLines] at hl
    split_ifs at hl with h1 h2 h3 h4 h5
    · exact ih true l hl
    · exact ih false l hl
    · exact ih false l hl
    · rcases List.mem_cons.mp hl with rfl | hl
      · exact h4
      · exact ih false l hl
    · exact ih false l hl
    · simp at hl

lemma hoisted_marks (f : Bool) (code : List Line) :
    ∀ l ∈ (classifyLines f code).hoisted,
      startsWith l museMark = true ∨ startsWith l externMark = true ∨
        startsWith l useMark = true := by
  induction code generalizing f with
  | nil => intro l hl; simp [classifyLines] at hl
  | cons c cs ih =>
    intro l hl
    simp only [classifyLines] at hl
    split_ifs at hl with h1 h2 h3 h4 h5
    · exact ih true l hl
    · rcases List.mem_cons.mp hl with rfl | hl
      · left
        rw [← after_isSome]
        exact h2
      · exact ih false l hl
    · rcases List.mem_cons.mp hl with rfl | hl
      · rw [Bool.or_eq_true] at h3
        rcases h3 with h | h
        · exact Or.inr (Or.inl h)
        · exact Or.inr (Or.inr h)
      · exact ih false l hl
    · exact ih false l hl
    · exact ih false l hl
    · simp at hl

lemma bodyLines_shape (f : Bool) (code : List Line) :
    (classifyLines f code).bodyLines = [] ∨
      ∃ (L : Line) (ls : List Line),
        (classifyLines f code).bodyLines = indentLine L :: ls.map indentLine
          ∧ plainBody L := by
  induction code generalizing f with
  | nil => left; simp [classifyLines]
  | cons c cs ih =>
    simp only [classifyLines]
    split_ifs with h1 h2 h3 h4 h5
    · exact ih true
    · exact ih false
    · exact ih false
    · exact ih false
    · exact ih false
    · right
      simp only [Bool.or_eq_true, not_or, Bool.not_eq_true] at h2 h3 h4 h5
      rw [after_isSome] at h2
      exact ⟨trimLeft c, cs, rfl, trimLeft_idem c, h5, h2, h3.1, h3.2, h4⟩

/-! ### Attribute/import classification of output lines -/

lemma isAttrLine_false_of_head {l : Line} {c : Char} {cs : Line}
    (h : startsWith l (c :: cs) = true) (hws : isWS c = false)
    (hne : (c == '#') = false) : isAttrLine l = false := by
  obtain ⟨t, rfl, _⟩ := startsWith_cons h
  unfold isAttrLine
  rw [trimLeft_cons_false hws]
  show startsWith (c :: t) ('#' :: '!' :: '[' :: []) = false
  simp [startsWith, hne]

lemma isAttrLine_false_of_hashBracket {l : Line}
    (h : startsWith l ('#' :: ['[']) = true) : isAttrLine l = false := by
  obtain ⟨t, rfl, h2⟩ := startsWith_cons h
  obtain ⟨u, rfl, _⟩ := startsWith_cons h2
  unfold isAttrLine
  rw [trimLeft_cons_false (show isWS '#' = false from rfl)]
  show startsWith ('#' :: '[' :: u) ('#' :: '!' :: '[' :: []) = false
  simp [startsWith, show ('[' == '!') = false from rfl]

lemma isImportLine_false_of_attr {l : Line} (h : startsWith l attrMark = true) :
    isImportLine l = false := by
  have h' : startsWith l ('#' :: ['!', '[']) = true := h
  obtain ⟨t, rfl, _⟩ := startsWith_cons h'
  show (startsWith ('#' :: t) ('e' :: "xtern ".data)
    || startsWith ('#' :: t) ('u' :: "se ".data)) = false
  simp [startsWith, show ('#' == 'e') = false from rfl,
    show ('#' == 'u') = false from rfl]

lemma isAttrLine_mkExternLine (aliases : Line → Option Line) (c : Line) :
    isAttrLine (mkExternLine aliases c) = false := by
  have he : startsWith externCrateMark ['e'] = true := rfl
  unfold mkExternLine
  cases aliases c with
  | some a =>
    simp only [List.append_assoc]
    exact isAttrLine_false_of_head (startsWith_append _ he) rfl rfl
  | none =>
    simp only [List.append_assoc]
    exact isAttrLine_false_of_head (startsWith_append _ he) rfl rfl

lemma isAttrLine_wildLine (c : Line) : isAttrLine (wildLine c) = false := by
  have hu : startsWith useMark ['u'] = true := rfl
  unfold wildLine
  simp only [List.append_assoc]
  exact isAttrLine_false_of_head (startsWith_append _ hu) rfl rfl

lemma isAttrLine_false_of_hoisted {l : Line}
    (h : startsWith l museMark = true ∨ startsWith l externMark = true ∨
      startsWith l useMark = true) : isAttrLine l = false := by
  rcases h with h | h | h
  · exact isAttrLine_false_of_hashBracket
      (startsWith_trans h (show startsWith museMark ('#' :: ['[']) = true from rfl))
  · exact isAttrLine_false_of_head
      (startsWith_trans h (show startsWith externMark ['e'] = true from rfl)) rfl rfl
  · exact isAttrLine_false_of_head
      (startsWith_trans h (show startsWith useMark ['u'] = true from rfl)) rfl rfl

lemma isAttrLine_false_externUse (aliases : Line → Option Line)
    (e w : List Line) : ∀ l ∈ externUseLines aliases e w, isAttrLine l = false := by
  intro l hl
  unfold externUseLines at hl
  split_ifs at hl with h
  · simp at hl
  · rcases List.mem_append.mp hl with hl | hl
    · obtain ⟨c, _, rfl⟩ := List.mem_map.mp hl
      exact isAttrLine_mkExternLine aliases c
    · obtain ⟨c, _, rfl⟩ := List.mem_map.mp hl
      exact isAttrLine_wildLine c

lemma tailLines_attr_false : ∀ l ∈ tailLines, isAttrLine l = false := by decide

lemma mergeFront_nil (ls : List Line) : mergeFront [] ls = ls := by
  simp [mergeFront]

/-! ### Position reasoning in the assembled output -/

lemma getD_mem_or (L : List Line) (i : Nat) :
    L.getD i [] ∈ L ∨ L.getD i [] = ([] : Line) := by
  rw [List.getD_eq_getElem?_getD]
  by_cases h : i < L.length
  · rw [List.getElem?_eq_getElem h]
    exact Or.inl (by simp [List.getElem_mem h])
  · rw [List.getElem?_eq_none (Nat.le_of_not_lt h)]
    exact Or.inr rfl

lemma attr_before_of_partition (A B : List Line)
    (hA : ∀ l ∈ A, isImportLine l = false)
    (hB : ∀ l ∈ B, isAttrLine l = false)
    (i j : Nat)
    (hi : isAttrLine ((A ++ B).getD i []) = true)
    (hj : isImportLine ((A ++ B).getD j []) = true) : i < j := by
  have hiA : i < A.length := by
    by_contra hcon
    have hge : A.length ≤ i := Nat.le_of_not_lt hcon
    rw [List.getD_eq_getElem?_getD, List.getElem?_append_right hge,
      ← List.getD_eq_getElem?_getD] at hi
    rcases getD_mem_or B (i - A.length) with hmem | hnil
    · rw [hB _ hmem] at hi
      exact Bool.false_ne_true hi
    · rw [hnil] at hi
      exact Bool.false_ne_true hi
  have hjA : A.length ≤ j := by
    by_contra hcon
    have hlt : j < A.length := Nat.lt_of_not_le hcon
    rw [List.getD_eq_getElem?_getD, List.getElem?_append_left hlt,
      List.getElem?_eq_getElem hlt] at hj
    simp only [Option.getD_some] at hj
    rw [hA _ (List.getElem_mem hlt)] at hj
    exact Bool.false_ne_true hj
  omega

/-! ### Claim C1 -/

/-- Claim C1 (amended): for `massage_snippet` with an empty prepend
statement, an attribute-free prelude, and an input whose crate-level
attribute lines all occur in the header segment (the classifier puts
none of them in the body), every crate-level attribute line of the
output appears strictly before any `extern`/`use` line, and the hoisted
attribute segment does appear in the output. -/
theorem c1_attr_lines_precede_imports
    (code preludeLines externCrates wildCrates : List Line)
    (aliases : Line → Option Line)
    (hp : ∀ l ∈ preludeLines, isAttrLine l = false)
    (hb : ∀ l ∈ (classifyLines true code).bodyLines, isAttrLine l = false)
    (i j : Nat)
    (hi : isAttrLine ((massage_snippet code preludeLines externCrates
      wildCrates [] aliases).1.getD i []) = true)
    (hj : isImportLine ((massage_snippet code preludeLines externCrates
      wildCrates [] aliases).1.getD j []) = true) :
    i < j ∧ ∀ l ∈ (classifyLines true code).crateBegin,
      l ∈ (massage_snippet code preludeLines externCrates wildCrates [] aliases).1 := by
  have hout : (massage_snippet code preludeLines externCrates wildCrates [] aliases).1
      = (classifyLines true code).crateBegin ++
        ([([] : Line)] ++ (preludeLines ++ externUseLines aliases externCrates wildCrates
          ++ (classifyLines true code).hoisted) ++ [([] : Line), ([] : Line)]
          ++ [runHeaderLine] ++ ((classifyLines true code).bodyLines ++ tailLines)) := by
    simp only [massage_snippet, mergeFront_nil, List.append_assoc]
  have hA : ∀ l ∈ (classifyLines true code).crateBegin, isImportLine l = false :=
    fun l hl => isImportLine_false_of_attr (crateBegin_attr true code l hl)
  have hnil : isAttrLine ([] : Line) = false := rfl
  have hB : ∀ l ∈ ([([] : Line)] ++ (preludeLines
      ++ externUseLines aliases externCrates wildCrates
      ++ (classifyLines true code).hoisted) ++ [([] : Line), ([] : Line)]
      ++ [runHeaderLine] ++ ((classifyLines true code).bodyLines ++ tailLines)),
      isAttrLine l = false := by
    intro l hl
    rcases List.mem_append.mp hl with h1 | h2
    · rcases List.mem_append.mp h1 with h3 | h4
      · rcases List.mem_append.mp h3 with h5 | h6
        · rcases List.mem_append.mp h5 with h7 | h8
          · rcases List.mem_singleton.mp h7 with rfl
            exact hnil
          · rcases List.mem_append.mp h8 with h9 | h10
            · rcases List.mem_append.mp h9 with h11 | h12
              · exact hp l h11
              · exact isAttrLine_false_externUse aliases externCrates wildCrates l h12
            · exact isAttrLine_false_of_hoisted (hoisted_marks true code l h10)
        · rcases List.mem_cons.mp h6 with rfl | h7
          · exact hnil
          · rcases List.mem_singleton.mp h7 with rfl
            exact hnil
      · rcases List.mem_singleton.mp h4 with rfl
        decide
    · rcases List.mem_append.mp h2 with h3 | h4
      · exact hb l h3
      · exact tailLines_attr_false l h4
  refine ⟨?_, ?_⟩
  · rw [hout] at hi hj
    exact attr_before_of_partition _ _ hA hB i j hi hj
  · intro l hl
    rw [hout]
    exact List.mem_append.mpr (Or.inl hl)

/-- Claim C1 (counterexample): as literally stated — for every input,
i.e. every permutation of interleaved attribute/import/body lines —
the property fails: an attribute line placed after the first body line
is carried into the generated body and thus appears after the hoisted
`use` line. -/
theorem c1_counterexample :
    ¬ (∀ (code preludeLines externCrates wildCrates : List Line)
        (aliases : Line → Option Line),
        (∀ l ∈ preludeLines, isAttrLine l = false) →
        ∀ i j : Nat,
          isAttrLine ((massage_snippet code preludeLines externCrates
            wildCrates [] aliases).1.getD i []) = true →
          isImportLine ((massage_snippet code preludeLines externCrates
            wildCrates [] aliases).1.getD j []) = true →
          i < j) := by
  intro h
  have h61 := h ["use foo;".data, "let x = 1;".data, "#![feature(f)]".data]
    [] [] [] (fun _ => none) (by simp) 6 1 (by decide) (by decide)
  omega

/-- Witness for C1 at a concrete input whose attribute line is in the
header segment. -/
theorem c1_witness :
    (0 : Nat) < 2 ∧ ∀ l ∈ (classifyLines true ["#![feature(f)]".data,
      "use foo;".data, "let x = 1;".data]).crateBegin,
      l ∈ (massage_snippet ["#![feature(f)]".data, "use foo;".data,
        "let x = 1;".data] [] [] [] [] (fun _ => none)).1 :=
  c1_attr_lines_precede_imports
    ["#![feature(f)]".data, "use foo;".data, "let x = 1;".data]
    [] [] [] (fun _ => none) (by simp) (by decide) 0 2 (by decide) (by decide)

/-! ### Claim C2 -/

/-- Claim C2: the deduced-externs list returned by `massage_snippet`
contains every explicitly requested name, is sorted, and has no
duplicates. -/
theorem c2_deduced_externs_superset_sorted_nodup
    (code preludeLines externCrates wildCrates : List Line) (bodyPre : Line)
    (aliases : Line → Option Line) :
    (∀ c ∈ externCrates,
      c ∈ (massage_snippet code preludeLines externCrates wildCrates bodyPre aliases).2) ∧
    (massage_snippet code preludeLines externCrates wildCrates bodyPre
      aliases).2.Sorted (· ≤ ·) ∧
    (massage_snippet code preludeLines externCrates wildCrates bodyPre
      aliases).2.Nodup := by
  have hd : (massage_snippet code preludeLines externCrates wildCrates bodyPre aliases).2
      = dedupAdj (sortLines ((classifyLines true code).deduced ++ externCrates)) := by
    simp only [massage_snippet]
  rw [hd]
  have hsorted : (sortLines ((classifyLines true code).deduced
      ++ externCrates)).Sorted (· ≤ ·) := by
    unfold sortLines
    exact List.sorted_insertionSort _ _
  refine ⟨?_, sorted_dedupAdj hsorted, nodup_dedupAdj hsorted⟩
  intro c hc
  rw [mem_dedupAdj]
  unfold sortLines
  exact ((List.perm_insertionSort _ _).mem_iff).mpr (List.mem_append.mpr (Or.inr hc))

/-- Witness for C2: a requested name is in the returned deduced list. -/
theorem c2_witness :
    "regex".data ∈ (massage_snippet [] [] ["regex".data] [] []
      (fun _ => none)).2 :=
  (c2_deduced_externs_superset_sorted_nodup [] [] ["regex".data] [] []
    (fun _ => none)).1 ("regex".data) (by simp)

/-! ### Claim C3 -/

lemma endsWithLines_append (t suf : List Line) :
    endsWithLines (t ++ suf) suf = true := by
  unfold endsWithLines
  rw [List.length_append]
  rw [show t.length + suf.length - suf.length = t.length by omega]
  rw [List.drop_left]
  exact beq_self_eq_true suf

lemma mergeFront_tail_split (p : Line) (xs : List Line) :
    ∃ T, mergeFront p (xs ++ tailLines) = T ++ mainTail := by
  unfold mergeFront tailLines
  split_ifs with h
  · exact ⟨xs ++ [okLine], by simp⟩
  · cases xs with
    | nil => exact ⟨[p ++ okLine], by simp⟩
    | cons x xt => exact ⟨(p ++ x) :: (xt ++ [okLine]), by simp⟩

/-- Claim C3 (amended): every program assembled by `massage_snippet`
ends with the generated `fn main` wrapper, whose error report is a
`println!` statement — i.e. the error goes to standard output, not
standard error — and the body runs inside the generated `fn run`
returning `Result`. -/
theorem c3_wrapper_reports_to_stdout
    (code preludeLines externCrates wildCrates : List Line) (bodyPre : Line)
    (aliases : Line → Option Line) :
    endsWithLines (massage_snippet code preludeLines externCrates wildCrates
      bodyPre aliases).1 mainTail = true ∧
    runHeaderLine ∈ (massage_snippet code preludeLines externCrates wildCrates
      bodyPre aliases).1 := by
  constructor
  · obtain ⟨T, hT⟩ := mergeFront_tail_split bodyPre (classifyLines true code).bodyLines
    have h1 : (massage_snippet code preludeLines externCrates wildCrates
        bodyPre aliases).1
        = ((classifyLines true code).crateBegin ++ [([] : Line)]
          ++ (preludeLines ++ externUseLines aliases externCrates wildCrates
            ++ (classifyLines true code).hoisted)
          ++ [([] : Line), ([] : Line)] ++ [runHeaderLine] ++ T) ++ mainTail := by
      simp only [massage_snippet, hT, List.append_assoc]
    rw [h1]
    exact endsWithLines_append _ _
  · simp [massage_snippet, List.mem_append]

/-- Claim C3 (counterexample): as stated — with the error reported to
standard error (`eprintln!`) — the property fails: the generated
wrapper does not end with an `eprintln!`-reporting `fn main`. -/
theorem c3_counterexample :
    ¬ (∀ (code preludeLines externCrates wildCrates : List Line) (bodyPre : Line)
        (aliases : Line → Option Line),
        endsWithLines (massage_snippet code preludeLines externCrates wildCrates
          bodyPre aliases).1 mainTailStderr = true) := by
  intro h
  exact absurd (h [] [] [] [] [] (fun _ => none)) (by decide)

/-- Witness for C3 at a concrete snippet. -/
theorem c3_witness :
    endsWithLines (massage_snippet ["let y = 2;".data] [] [] [] []
      (fun _ => none)).1 mainTail = true ∧
    runHeaderLine ∈ (massage_snippet ["let y = 2;".data] [] [] [] []
      (fun _ => none)).1 :=
  c3_wrapper_reports_to_stdout ["let y = 2;".data] [] [] [] [] (fun _ => none)

/-! ### Claim C8 -/

/-- Claim C8 (amended): re-running the classifier on the extracted body
of a previous run (empty prepend statement) discovers nothing further —
no crate attribute, no hoisted import/use or macro-use line, no deduced
extern, and no dropped line — provided the first body line does not
begin with the shebang marker. -/
theorem c8_reclassify_body_plain (code : List Line)
    (h : (classifyLines true code).bodyLines.head?.all
      (fun l => !startsWith (trimLeft l) shebangMark) = true) :
    (classifyLines true (classifyLines true code).bodyLines).crateBegin = [] ∧
    (classifyLines true (classifyLines true code).bodyLines).hoisted = [] ∧
    (classifyLines true (classifyLines true code).bodyLines).deduced = [] ∧
    (classifyLines true (classifyLines true code).bodyLines).bodyLines.length
      = (classifyLines true code).bodyLines.length := by
  rcases bodyLines_shape true code with hnil | ⟨L, ls, heq, hL⟩
  · rw [hnil]
    exact ⟨rfl, rfl, rfl, rfl⟩
  · obtain ⟨hTrim, hNE, hMu, hExt, hUse, hAttr⟩ := hL
    have hTrimInd : trimLeft (indentLine L) = L := by
      rw [trimLeft_indent, hTrim]
    rw [heq] at h
    simp only [List.head?_cons, Option.all_some, Bool.not_eq_true'] at h
    rw [hTrimInd] at h
    rw [heq]
    have hstep : classifyLines true (indentLine L :: ls.map indentLine)
        = ⟨[], [], [], indentLine L :: (ls.map indentLine).map indentLine⟩ := by
      simp [classifyLines, hTrimInd, after_isSome, h, hMu, hExt, hUse, hAttr, hNE]
    rw [hstep]
    refine ⟨rfl, rfl, rfl, ?_⟩
    show (indentLine L :: (ls.map indentLine).map indentLine).length
      = (indentLine L :: ls.map indentLine).length
    simp only [List.length_cons, List.length_map]

/-- Claim C8 (counterexample): as stated — for every snippet — the
property fails: a body whose first line is shebang-shaped is dropped on
the second run, exposing a later `use` line to re-classification. -/
theorem c8_counterexample :
    ¬ (∀ code : List Line,
        (classifyLines true (classifyLines true code).bodyLines).crateBegin = [] ∧
        (classifyLines true (classifyLines true code).bodyLines).hoisted = [] ∧
        (classifyLines true (classifyLines true code).bodyLines).deduced = [] ∧
        (classifyLines true (classifyLines true code).bodyLines).bodyLines.length
          = (classifyLines true code).bodyLines.length) := by
  intro h
  exact absurd (h ["use bar;".data, "#!/a".data, "use foo;".data]).2.1 (by decide)

/-- Witness for C8 at a concrete snippet. -/
theorem c8_witness :
    (classifyLines true (classifyLines true ["let x = 1;".data]).bodyLines).crateBegin = [] ∧
    (classifyLines true (classifyLines true ["let x = 1;".data]).bodyLines).hoisted = [] ∧
    (classifyLines true (classifyLines true ["let x = 1;".data]).bodyLines).deduced = [] ∧
    (classifyLines true (classifyLines true ["let x = 1;".data]).bodyLines).bodyLines.length
      = (classifyLines true ["let x = 1;".data]).bodyLines.length :=
  c8_reclassify_body_plain ["let x = 1;".data] (by decide)

/-! ### Claim C7 -/

/-- Claim C7: for each explicitly requested crate name,
`massage_snippet` emits `extern crate ALIAS as NAME;` when the alias
table maps the name — a line distinct from the plain import — and the
plain `extern crate NAME;` when it does not; the emitted line appears
in the output program. -/
theorem c7_alias_extern_lines
    (code preludeLines externCrates wildCrates : List Line) (bodyPre : Line)
    (aliases : Line → Option Line) (c : Line) (hc : c ∈ externCrates) :
    mkExternLine aliases c ∈ (massage_snippet code preludeLines externCrates
      wildCrates bodyPre aliases).1 ∧
    (∀ a, aliases c = some a →
      mkExternLine aliases c = externCrateMark ++ a ++ " as ".data ++ c ++ [';'] ∧
      mkExternLine aliases c ≠ externCrateMark ++ c ++ [';']) ∧
    (aliases c = none →
      mkExternLine aliases c = externCrateMark ++ c ++ [';']) := by
  refine ⟨?_, ?_, ?_⟩
  · have h1 : mkExternLine aliases c
        ∈ externUseLines aliases externCrates wildCrates := by
      unfold externUseLines
      rw [if_neg (List.ne_nil_of_mem hc)]
      exact List.mem_append.mpr (Or.inl (List.mem_map.mpr ⟨c, hc, rfl⟩))
    simp only [massage_snippet, List.mem_append]
    tauto
  · intro a ha
    constructor
    · simp [mkExternLine, ha]
    · intro heq
      have hlen := congrArg List.length heq
      simp only [mkExternLine, ha, List.length_append, List.length_cons,
        List.length_nil] at hlen
      omega
  · intro h0
    simp [mkExternLine, h0]

/-- Witness for C7: with alias `foo=bar`, the emitted line is the
renamed import. -/
theorem c7_witness :
    mkExternLine (fun n => if n = "foo".data then some ("bar".data) else none)
      ("foo".data) ∈ (massage_snippet [] [] ["foo".data] [] []
      (fun n => if n = "foo".data then some ("bar".data) else none)).1 :=
  (c7_alias_extern_lines [] [] ["foo".data] [] []
    (fun n => if n = "foo".data then some ("bar".data) else none)
    ("foo".data) (by simp)).1

/-! ### Claim C10 -/

lemma exists_append_mainTail (code preludeLines externCrates wildCrates : List Line)
    (bodyPre : Line) (aliases : Line → Option Line) :
    ∃ T, (massage_snippet code preludeLines externCrates wildCrates bodyPre aliases).1
      = T ++ mainTail := by
  obtain ⟨T, hT⟩ := mergeFront_tail_split bodyPre (classifyLines true code).bodyLines
  refine ⟨(classifyLines true code).crateBegin ++ [([] : Line)]
    ++ (preludeLines ++ externUseLines aliases externCrates wildCrates
      ++ (classifyLines true code).hoisted)
    ++ [([] : Line), ([] : Line)] ++ [runHeaderLine] ++ T, ?_⟩
  simp only [massage_snippet, hT, List.append_assoc]

/-- Claim C10: the transformer is bypassed (the file is used verbatim,
with no injected imports and no deduced externs) exactly when the text
contains the substring `fn main` anywhere — also inside a comment or a
string literal, since the test is a plain substring search. -/
theorem c10_proper_bypass (code preludeLines externCrates wildCrates : List Line)
    (bodyPre : Line) (aliases : Line → Option Line) :
    processProgram code preludeLines externCrates wildCrates bodyPre aliases
      = (code, []) ↔ properSnippet code = true := by
  constructor
  · intro h
    by_cases hp : properSnippet code = true
    · exact hp
    · exfalso
      rw [processProgram, if_neg hp] at h
      obtain ⟨T, hT⟩ := exists_append_mainTail code preludeLines externCrates
        wildCrates bodyPre aliases
      have hmem : ("fn main() \x7b".data : Line)
          ∈ (massage_snippet code preludeLines externCrates wildCrates
            bodyPre aliases).1 := by
        rw [hT]
        exact List.mem_append.mpr (Or.inr (by decide))
      have h1 := congrArg Prod.fst h
      rw [h1] at hmem
      apply hp
      unfold properSnippet
      rw [List.any_eq_true]
      exact ⟨_, hmem, by decide⟩
  · intro hp
    simp [processProgram, hp]

/-- Witness for C10: `fn main` inside a comment bypasses the
transformer. -/
theorem c10_witness :
    processProgram ["// fn main in a comment".data, "let q = 3;".data]
      [] [] [] [] (fun _ => none)
      = (["// fn main in a comment".data, "let q = 3;".data], []) :=
  (c10_proper_bypass ["// fn main in a comment".data, "let q = 3;".data]
    [] [] [] [] (fun _ => none)).mpr (by decide)

/-! ### Claim C4 -/

lemma resolveStaticExterns_error (meta : Line → Bool → Option Line) (debug : Bool) :
    ∀ (ec : List Line) (c : Line),
      ec.find? (fun x => (meta x debug).isNone) = some c →
      resolveStaticExterns meta debug ec = .error (noSuchCrateMsg c)
  | [], c, h => by simp at h
  | x :: xs, c, h => by
    by_cases hx : (meta x debug).isNone = true
    · rw [List.find?_cons_of_pos xs
        (show (fun y => (meta y debug).isNone) x = true from hx)] at h
      obtain rfl := Option.some.inj h
      unfold resolveStaticExterns
      rw [Option.isNone_iff_eq_none] at hx
      simp [hx]
    · rw [List.find?_cons_of_neg xs
        (show ¬(fun y => (meta y debug).isNone) x = true from hx)] at h
      have ih := resolveStaticExterns_error meta debug xs c h
      unfold resolveStaticExterns
      rcases hm : meta x debug with _ | full
      · rw [hm] at hx
        simp at hx
      · simp [hm, ih]

/-- Claim C4: in static mode, when some requested name has no recorded
artifact for the selected profile, `compile_crate` fails with the
`no such crate` error naming the (first) missing name — the name is a
segment of the message — and it never produces the dynamic-mode
prefix/suffix constructed list. -/
theorem c4_static_missing_crate_fails
    (debug libc : Bool) (meta : Line → Bool → Option Line) (dllPre dllSuf : Line)
    (externCrates argExterns : List Line) (c : Line)
    (h : (compileExternList externCrates argExterns libc).find?
      (fun x => (meta x debug).isNone) = some c) :
    compile_crate_externs true debug libc meta dllPre dllSuf externCrates argExterns
      = .error (noSuchCrateMsg c) ∧
    containsSub (noSuchCrateMsg c) c = true ∧
    ∀ ps, compile_crate_externs true debug libc meta dllPre dllSuf externCrates
      argExterns ≠ .ok ps := by
  have hne : compileExternList externCrates argExterns libc ≠ [] :=
    List.ne_nil_of_mem (List.mem_of_find?_eq_some h)
  have herr : compile_crate_externs true debug libc meta dllPre dllSuf externCrates
      argExterns = .error (noSuchCrateMsg c) := by
    unfold compile_crate_externs
    rw [if_pos ⟨rfl, hne⟩]
    exact resolveStaticExterns_error meta debug _ c h
  refine ⟨herr, ?_, ?_⟩
  · unfold noSuchCrateMsg
    exact containsSub_append_right _ _
  · intro ps hok
    rw [herr] at hok
    exact Except.noConfusion hok

/-- Witness for C4: a missing crate in static mode yields the error. -/
theorem c4_witness :
    compile_crate_externs true true false (fun _ _ => none) ("lib".data)
      (".so".data) ["serde".data] []
      = .error (noSuchCrateMsg ("serde".data)) :=
  (c4_static_missing_crate_fails true false (fun _ _ => none) ("lib".data)
    (".so".data) ["serde".data] [] ("serde".data) (by decide)).1

/-! ### Claim C5 -/

/-- Claim C5: the manifest is backed up before the appends, and when
either build pass fails the manifest is restored byte-for-byte to its
pre-edit content. -/
theorem c5_manifest_rollback (fs : ManifestState) (crates : List Line)
    (debugOut releaseOut : Option Line) (docOk : Bool)
    (hfail : debugOut = none ∨ releaseOut = none) :
    (create_static_cache fs crates debugOut releaseOut docOk).manifest
      = fs.manifest ∧
    (create_static_cache fs crates debugOut releaseOut docOk).backup
      = some fs.manifest := by
  have hb : build_static_cache_ok debugOut releaseOut docOk = false := by
    rcases hfail with rfl | rfl
    · rfl
    · cases debugOut <;> rfl
  unfold create_static_cache
  rw [hb]
  simp

/-- Witness for C5: a failing debug pass restores the manifest. -/
theorem c5_witness :
    (create_static_cache ⟨"[package]".data, none⟩ ["regex".data] none
      (some []) true).manifest = "[package]".data ∧
    (create_static_cache ⟨"[package]".data, none⟩ ["regex".data] none
      (some []) true).backup = some ("[package]".data) :=
  c5_manifest_rollback ⟨"[package]".data, none⟩ ["regex".data] none
    (some []) true (Or.inl rfl)

/-! ### Claim C6 -/

lemma cargoBuild_foldl (lines : List Line) :
    ∀ (a : Line) (e : List Line),
      lines.foldl cargoBuildStep (a, e)
        = (a ++ ((lines.filter (fun l => startsWith l [braceChar])).map
            (fun l => l ++ ['\n'])).flatten,
           e ++ lines.filter (fun l => !startsWith l [braceChar])) := by
  induction lines with
  | nil => intro a e; simp
  | cons x xs ih =>
    intro a e
    by_cases hx : startsWith x [braceChar] = true
    · simp only [List.foldl_cons, cargoBuildStep, if_pos hx, List.filter_cons, hx,
        Bool.not_true, if_neg, Bool.false_eq_true, not_false_eq_true, ih,
        List.map_cons, List.flatten_cons]
      simp [List.append_assoc]
    · simp only [Bool.not_eq_true] at hx
      simp only [List.foldl_cons, cargoBuildStep, hx, Bool.false_eq_true,
        not_false_eq_true, if_neg, List.filter_cons, Bool.not_false, if_pos, ih]
      simp [List.append_assoc]

/-- Claim C6: `cargo_build` captures exactly the `{`-starting lines, in
order and newline-terminated; every other line is echoed; and the
captured text is returned exactly when the subprocess exit is
successful (`none` on failure). -/
theorem c6_cargo_build_stream (lines : List Line) (exitOk : Bool) :
    (cargo_build lines exitOk).2
      = lines.filter (fun l => !startsWith l [braceChar]) ∧
    ((cargo_build lines exitOk).1
      = some ((lines.filter (fun l => startsWith l [braceChar])).map
          (fun l => l ++ ['\n'])).flatten ↔ exitOk = true) ∧
    (cargo_build lines false).1 = none := by
  have hf := cargoBuild_foldl lines [] []
  refine ⟨?_, ?_, rfl⟩
  · unfold cargo_build
    rw [hf]
    simp
  · unfold cargo_build
    rw [hf]
    cases exitOk <;> simp

/-- Witness for C6 on a short concrete stream. -/
theorem c6_witness :
    (cargo_build ["\x7b\"reason\":\"x\"\x7d".data, "Compiling foo".data] true).2
      = ["Compiling foo".data] :=
  (c6_cargo_build_stream ["\x7b\"reason\":\"x\"\x7d".data,
    "Compiling foo".data] true).1

/-! ### Claim C9 -/

/-- Claim C9: `get_prelude` never deletes or overwrites existing
content — an existing prelude file keeps its content, existing
directories stay — and it is idempotent: a second run over the layout
produced by a first run changes nothing and reads the same prelude.
The well-formedness hypothesis says an absent home directory has no
contents inside it. -/
theorem c9_get_prelude_idempotent (fs : FsState) (p : Line)
    (wf : fs.homeDir = false →
      fs.preludeFile = none ∧ fs.binDir = false ∧ fs.dyDir = false) :
    ((fs.preludeFile = some p → (get_prelude fs).1.preludeFile = some p) ∧
     (fs.binDir = true → (get_prelude fs).1.binDir = true) ∧
     (fs.dyDir = true → (get_prelude fs).1.dyDir = true) ∧
     (fs.homeDir = true → (get_prelude fs).1.homeDir = true)) ∧
    (get_prelude ((get_prelude fs).1)).1 = (get_prelude fs).1 ∧
    (get_prelude ((get_prelude fs).1)).2 = (get_prelude fs).2 := by
  obtain ⟨h, pf, b, d⟩ := fs
  cases h <;> cases b <;> cases d <;> simp_all [get_prelude]

/-- Witness for C9: running twice over a pristine layout is stable. -/
theorem c9_witness :
    (get_prelude ((get_prelude ⟨false, none, false, false⟩).1)).1
      = (get_prelude ⟨false, none, false, false⟩).1 :=
  ((c9_get_prelude_idempotent ⟨false, none, false, false⟩ []
    (fun _ => ⟨rfl, rfl, rfl⟩)).2).1

end Runner
